import Mathlib

/-!
Shallow embedding of `src/app.py` (Tsinghua dashboard, Streamlit + Supabase).

Modelling conventions:
* Floats become `ℚ`.  Every score mutation in the program adds integer deltas
  to values that start at `25.0`/`100.0`, and leave hours are entered in steps
  of `0.5`, so all arithmetic the claims touch is exact and the rational model
  agrees with IEEE semantics on it (the threshold comparison `> 8.4` is never
  evaluated at a sum strictly between the rational `8.4` and the float nearest
  to it, since sums of halves are at distance ≥ 0.1 from `8.4`).
* The SQL tables become lists of rows; `SERIAL` ids become an explicit
  counter.  `UPDATE ... WHERE group_name = x` becomes a map over the rows that
  rewrites the matching ones; a `DELETE` becomes a filter.
* Streamlit session state (`st.session_state.data/logs/approvals/leave_records`)
  becomes the `Session` structure; one user interaction (one script run ending
  in `st.rerun()`) becomes one `AppOp` applied by `step`.  The wall clock
  (`datetime.now()`) is passed in as an opaque string parameter.
* Python dict/list idioms are kept: `dict.get(k, d)` is a first-match lookup
  with default, `list.pop(i)` is `List.eraseIdx`, the leave aggregation dict
  keyed by the f-string `f"{group}-{name}"` is an insertion-ordered assoc list
  keyed by the concatenation `group ++ "-" ++ name`.
-/

namespace App

/-- One row of the `groups_data` table, equally one row of the in-memory
dataframe `st.session_state.data` (columns 小组/总分/four dimensions/总请假时长). -/
structure GroupRow where
  name : String
  total : ℚ
  punctuality : ℚ
  focus : ℚ
  help : ℚ
  vitality : ℚ
  leaveHours : ℚ
deriving DecidableEq, Repr

/-- The four scoring axes (the four dimension columns of the dataframe). -/
inductive Dimension where
  | punctuality
  | focus
  | help
  | vitality
deriving DecidableEq, Repr

/-- The Chinese column-name string of a dimension, as used by the dialogs and
stored in approval-request dicts. -/
def dimName : Dimension → String
  | .punctuality => "自强不息(准时)"
  | .focus => "行胜于言(专注)"
  | .help => "厚德载物(互助)"
  | .vitality => "无体育不清华(活力)"

/-- `col_map.get(dimension)` in `save_group_data`: maps the Chinese column
name to the database column; any other string maps to `None`. -/
def col_map (dimension : String) : Option Dimension :=
  if dimension = "自强不息(准时)" then some .punctuality
  else if dimension = "行胜于言(专注)" then some .focus
  else if dimension = "厚德载物(互助)" then some .help
  else if dimension = "无体育不清华(活力)" then some .vitality
  else none

/-- Add `change` to one dimension column of a row. -/
def applyDim (row : GroupRow) (d : Dimension) (change : ℚ) : GroupRow :=
  match d with
  | .punctuality => { row with punctuality := row.punctuality + change }
  | .focus => { row with focus := row.focus + change }
  | .help => { row with help := row.help + change }
  | .vitality => { row with vitality := row.vitality + change }

/-- The in-memory score update done by the dialogs and by score-approval:
`data.loc[idx, dimension] += change; data.loc[idx, "总分"] += change`. -/
def scoreAdjRow (d : Dimension) (change : ℚ) (row : GroupRow) : GroupRow :=
  let r1 := applyDim row d change
  { r1 with total := r1.total + change }

/-- Update the first list element satisfying `p` (pandas
`data[data["小组"] == group].index[0]` followed by a `.loc` write).  The
`index[0]` lookup raises IndexError when no row matches; `step` models that
abort explicitly, so this function is only ever applied under a guard
establishing that a matching row exists. -/
def updateFirst (p : α → Bool) (f : α → α) : List α → List α
  | [] => []
  | x :: xs => if p x then f x :: xs else x :: updateFirst p f xs

/-- One row of the `leave_records` table / one element of
`st.session_state.leave_records`. -/
structure LeaveRecord where
  group : String
  name : String
  hours : ℚ
deriving DecidableEq, Repr

/-- The JSON payload of an approval request: either a score adjustment
(dict without a `type` key) or a leave request (`type == "leave"`). -/
inductive ReqBody where
  | score (group : String) (dim : Dimension) (change : ℚ) (reason timestamp : String)
  | leave (group pname : String) (hours : ℚ) (reason timestamp : String)
deriving DecidableEq, Repr

/-- An element of `st.session_state.approvals`: the request dict, plus the
`db_id` key, which is present only when the item was produced by `load_data`
(requests appended by the submit dialogs in the running session carry none). -/
structure SessionReq where
  body : ReqBody
  db_id : Option Nat
deriving DecidableEq, Repr

/-- The backing store: the four Supabase tables, with the `SERIAL` id counter
of `approvals` made explicit. -/
structure Db where
  groups_data : List GroupRow
  logs : List String
  approvals : List (Nat × ReqBody)
  approvals_next_id : Nat
  leave_records : List LeaveRecord
deriving DecidableEq, Repr

/-- `add_log`: `INSERT INTO logs (content) VALUES (:content)`. -/
def add_log (db : Db) (content : String) : Db :=
  { db with logs := db.logs ++ [content] }

/-- `add_approval`: `INSERT INTO approvals (content) VALUES (:content)`;
the row receives the next serial id. -/
def add_approval (db : Db) (body : ReqBody) : Db :=
  { db with
    approvals := db.approvals ++ [(db.approvals_next_id, body)],
    approvals_next_id := db.approvals_next_id + 1 }

/-- `delete_approval(db_id)`: `DELETE FROM approvals WHERE id = :id`.
When the Python caller passes `None` (a request dict without `db_id`), the SQL
comparison `id = NULL` matches no row, so nothing is deleted. -/
def delete_approval (db : Db) (db_id : Option Nat) : Db :=
  match db_id with
  | none => db
  | some n => { db with approvals := db.approvals.filter (fun r => r.1 != n) }

/-- `add_leave_record`: insert one row into `leave_records`. -/
def add_leave_record (db : Db) (group pname : String) (hours : ℚ) : Db :=
  { db with leave_records := db.leave_records ++ [⟨group, pname, hours⟩] }

/-- The first UPDATE of `save_group_data`: when `col_map.get(dimension)` is a
known column, add `change` to it and `total_change` to `total_score` on the
rows named `group_name`; otherwise (`if db_col:` is false) touch nothing. -/
def saveScoreRows (group_name : String) (db_col : Option Dimension)
    (change total_change : ℚ) (rows : List GroupRow) : List GroupRow :=
  match db_col with
  | some d =>
      rows.map (fun row =>
        if row.name = group_name then
          let r1 := applyDim row d change
          { r1 with total := r1.total + total_change }
        else row)
  | none => rows

/-- The second UPDATE of `save_group_data`: when `leave_change > 0`, add it to
`total_leave_hours` on the rows named `group_name`. -/
def saveLeaveRows (group_name : String) (leave_change : ℚ)
    (rows : List GroupRow) : List GroupRow :=
  if 0 < leave_change then
    rows.map (fun row =>
      if row.name = group_name then { row with leaveHours := row.leaveHours + leave_change }
      else row)
  else rows

/-- `save_group_data(group_name, dimension, change, total_change, leave_change)`:
the two conditional UPDATE statements in source order.  An unrecognized
dimension or an absent group silently updates nothing. -/
def save_group_data (db : Db) (group_name : String) (dimension : Option String)
    (change total_change leave_change : ℚ) : Db :=
  let rows := saveScoreRows group_name (dimension.bind col_map) change total_change db.groups_data
  { db with groups_data := saveLeaveRows group_name leave_change rows }

/-- The seven seed group names. -/
def seedNames : List String :=
  ["一组", "二组", "三组", "四组", "五组", "六组", "七组"]

/-- A seed row: total 100, 25 per dimension, 0 leave hours. -/
def seedRow (n : String) : GroupRow := ⟨n, 100, 25, 25, 25, 25, 0⟩

/-- The seed dataframe built by `load_data` when `groups_data` is empty. -/
def seedRows : List GroupRow := seedNames.map seedRow

/-- In-memory session state: `st.session_state.data/logs/approvals/leave_records`
(logs newest first). -/
structure Session where
  data : List GroupRow
  logs : List String
  approvals : List SessionReq
  leave_records : List LeaveRecord
deriving DecidableEq, Repr

/-- `load_data()`: returns the session state read from the store and the store
itself (mutated with the seed rows when `groups_data` was empty).  Logs are
read `ORDER BY id DESC`; each approval row is parsed and tagged with its
`db_id`. -/
def load_data (db : Db) : Session × Db :=
  let p : List GroupRow × Db :=
    match db.groups_data with
    | [] => (seedRows, { db with groups_data := seedRows })
    | r :: rs => (r :: rs, db)
  let logs := p.2.logs.reverse
  let approvals := p.2.approvals.map (fun r => SessionReq.mk r.2 (some r.1))
  (⟨p.1, logs, approvals, p.2.leave_records⟩, p.2)

/-- Combined program state: one browser session plus the backing store. -/
structure World where
  session : Session
  db : Db
deriving DecidableEq, Repr

/-- The empty store (before first run; `SERIAL` ids start at 1). -/
def emptyDb : Db := ⟨[], [], [], 1, []⟩

/-- The state after the first script run: `load_data` on the empty store. -/
def initWorld : World := ⟨(load_data emptyDb).1, (load_data emptyDb).2⟩

/-- One user interaction (one script run).  `adminScore` is one row of the
batch quick-score dialog with a positive count, or one confirmation of the
single quick-score dialog (both do the same update); `submitScore`/
`submitLeave` are the leader dialogs; `approveAt`/`rejectAt` are the admin
buttons at position `i` of the approval queue; `rename` is one execution of
the rename-group expander body with the given inputs and click flag. -/
inductive AppOp where
  | adminScore (group : String) (dim : Dimension) (change : ℚ) (reason ts : String)
  | submitScore (group : String) (dim : Dimension) (change : ℚ) (reason ts : String)
  | submitLeave (group pname : String) (hours : ℚ) (reason ts : String)
  | approveAt (i : Nat)
  | rejectAt (i : Nat)
  | rename (old new : String) (clicked : Bool) (ts : String)
deriving Repr

/-- The rename handler's test `not new_name.strip()`: true when the entered
name consists solely of whitespace characters. -/
def isBlank (s : String) : Bool := s.data.all Char.isWhitespace

/-- `UPDATE groups_data SET group_name = :new WHERE group_name = :old`
(executed unconditionally by the rename expander body). -/
def db_rename_group (db : Db) (old new : String) : Db :=
  { db with groups_data := db.groups_data.map (fun row =>
      if row.name = old then { row with name := new } else row) }

/-- The dedented tail of the rename expander body (the session-log insert,
the persisted `UPDATE groups_data SET group_name = :new`, and `add_log`),
which runs whenever no exception aborted the handler earlier — click or no
click, validation outcome notwithstanding.  `data1` is whatever the
in-memory dataframe is at that point. -/
def renameTail (w : World) (data1 : List GroupRow) (old new ts : String) : World :=
  let msg := ts ++ " | 系统消息: " ++ old ++ " 更名为 " ++ new
  ⟨{ w.session with data := data1, logs := msg :: w.session.logs },
    add_log (db_rename_group w.db old new) msg⟩

/-- One script run of `app.py`, as a function of the interaction performed.
Each branch mirrors the corresponding handler: in-memory mutations first,
then the `DB Sync` calls in source order; the `idx = ...index[0]` IndexError
aborts are modelled by guards that stop the run's remaining effects. -/
def step (w : World) : AppOp → World
  | .adminScore g d c reason ts =>
      -- The dialogs' first statement is `idx = data[...==group].index[0]`:
      -- with no matching row it raises IndexError and the run aborts before
      -- any mutation.
      if w.session.data.any (fun row => row.name == g) then
        let msg := ts ++ " | " ++ g ++ " " ++ dimName d ++ " | 原因: " ++ reason
        ⟨{ w.session with
            data := updateFirst (fun row => row.name == g) (scoreAdjRow d c) w.session.data,
            logs := msg :: w.session.logs },
          add_log (save_group_data w.db g (some (dimName d)) c c 0) msg⟩
      else w
  | .submitScore g d c reason ts =>
      let body := ReqBody.score g d c reason ts
      ⟨{ w.session with approvals := w.session.approvals ++ [⟨body, none⟩] },
        add_approval w.db body⟩
  | .submitLeave g pn h reason ts =>
      let body := ReqBody.leave g pn h reason ts
      ⟨{ w.session with approvals := w.session.approvals ++ [⟨body, none⟩] },
        add_approval w.db body⟩
  | .approveAt i =>
      match w.session.approvals[i]? with
      | none => w
      | some item =>
        match item.body with
        | .score g d c reason ts =>
            -- The branch's first statement is the `idx = ...index[0]` lookup:
            -- with no matching row it raises IndexError and the run aborts
            -- before the score update, the log, the pop and every DB-sync call.
            if w.session.data.any (fun row => row.name == g) then
              let msg := ts ++ " | [审核通过] " ++ g ++ " " ++ dimName d ++ " | 原因: " ++ reason
              ⟨{ w.session with
                  data := updateFirst (fun row => row.name == g) (scoreAdjRow d c) w.session.data,
                  logs := msg :: w.session.logs,
                  approvals := w.session.approvals.eraseIdx i },
                delete_approval
                  (add_log (save_group_data w.db g (some (dimName d)) c c 0) msg)
                  item.db_id⟩
            else w
        | .leave g pn h _reason ts =>
            -- The leave branch appends the session leave record first, and
            -- only then runs the `idx = ...index[0]` lookup: with no matching
            -- row the run aborts with that one session mutation in place and
            -- no other effect (no log, no pop, no DB-sync call).
            if w.session.data.any (fun row => row.name == g) then
              let msg := ts ++ " | [请假批准] " ++ g ++ "-" ++ pn
              ⟨{ w.session with
                  leave_records := w.session.leave_records ++ [⟨g, pn, h⟩],
                  data := updateFirst (fun row => row.name == g)
                    (fun row => { row with leaveHours := row.leaveHours + h }) w.session.data,
                  logs := msg :: w.session.logs,
                  approvals := w.session.approvals.eraseIdx i },
                delete_approval
                  (add_log (save_group_data (add_leave_record w.db g pn h) g none 0 0 h) msg)
                  item.db_id⟩
            else
              ⟨{ w.session with leave_records := w.session.leave_records ++ [⟨g, pn, h⟩] },
                w.db⟩
  | .rejectAt i =>
      match w.session.approvals[i]? with
      | none => w
      | some item =>
          ⟨{ w.session with approvals := w.session.approvals.eraseIdx i },
            delete_approval w.db item.db_id⟩
  | .rename old new clicked ts =>
      -- The validation branches only show errors; the log insert and the DB
      -- sync are dedented out of the `if st.button("确认改名")` block, so
      -- `renameTail` runs on every render of the expander — except when the
      -- valid-rename branch reached its `idx = ...index[0]` lookup with no
      -- row named `old`, which raises IndexError and aborts the whole run.
      if clicked then
        if isBlank new then renameTail w w.session.data old new ts
        else if w.session.data.any (fun row => row.name == new) then
          renameTail w w.session.data old new ts
        else if w.session.data.any (fun row => row.name == old) then
          renameTail w (updateFirst (fun row => row.name == old)
            (fun row => { row with name := new }) w.session.data) old new ts
        else w
      else renameTail w w.session.data old new ts

/-- Run a sequence of interactions. -/
def run (w : World) (ops : List AppOp) : World := ops.foldl step w

/-- The total-score invariant of one row. -/
def scoresOk (row : GroupRow) : Bool :=
  row.total == row.punctuality + row.focus + row.help + row.vitality

/-- The total-score invariant of a whole table. -/
def dataOk (data : List GroupRow) : Bool := data.all scoresOk

/-- The total-score invariant, for both the session dataframe and the store. -/
def worldOk (w : World) : Prop :=
  dataOk w.session.data = true ∧ dataOk w.db.groups_data = true

theorem groups_add_log (db : Db) (m : String) :
    (add_log db m).groups_data = db.groups_data := rfl

theorem groups_add_approval (db : Db) (b : ReqBody) :
    (add_approval db b).groups_data = db.groups_data := rfl

theorem groups_add_leave_record (db : Db) (g pn : String) (h : ℚ) :
    (add_leave_record db g pn h).groups_data = db.groups_data := rfl

theorem groups_delete_approval (db : Db) (x : Option Nat) :
    (delete_approval db x).groups_data = db.groups_data := by
  cases x <;> rfl

theorem scoresOk_scoreAdjRow (d : Dimension) (c : ℚ) (row : GroupRow)
    (h : scoresOk row = true) : scoresOk (scoreAdjRow d c row) = true := by
  cases d <;>
    (dsimp only [scoreAdjRow, applyDim]
     simp only [scoresOk, beq_iff_eq] at h ⊢
     linarith)

theorem all_updateFirst (P p : α → Bool) (f : α → α)
    (hf : ∀ a, P a = true → P (f a) = true) :
    ∀ l : List α, l.all P = true → (updateFirst p f l).all P = true := by
  intro l
  induction l with
  | nil => exact fun h => h
  | cons x xs ih =>
      intro h
      simp only [List.all_cons, Bool.and_eq_true] at h
      simp only [updateFirst]
      split
      · simp only [List.all_cons, Bool.and_eq_true]
        exact ⟨hf x h.1, h.2⟩
      · simp only [List.all_cons, Bool.and_eq_true]
        exact ⟨h.1, ih h.2⟩

theorem all_map_of_preserve (P : α → Bool) (f : α → α)
    (hf : ∀ a, P a = true → P (f a) = true) :
    ∀ l : List α, l.all P = true → (l.map f).all P = true := by
  intro l
  induction l with
  | nil => exact fun h => h
  | cons x xs ih =>
      intro h
      simp only [List.all_cons, Bool.and_eq_true] at h
      simp only [List.map_cons, List.all_cons, Bool.and_eq_true]
      exact ⟨hf x h.1, ih h.2⟩

theorem dataOk_saveScoreRows (g : String) (dc : Option Dimension) (c : ℚ)
    (rows : List GroupRow) (h : dataOk rows = true) :
    dataOk (saveScoreRows g dc c c rows) = true := by
  cases dc with
  | none => exact h
  | some d =>
      refine all_map_of_preserve _ _ (fun row hr => ?_) _ h
      split
      · exact scoresOk_scoreAdjRow d c row hr
      · exact hr

theorem dataOk_saveLeaveRows (g : String) (lc : ℚ)
    (rows : List GroupRow) (h : dataOk rows = true) :
    dataOk (saveLeaveRows g lc rows) = true := by
  unfold saveLeaveRows
  split
  · refine all_map_of_preserve _ _ (fun row hr => ?_) _ h
    split
    · exact hr
    · exact hr
  · exact h

theorem dataOk_save_group_data (db : Db) (g : String) (dim : Option String)
    (c lc : ℚ) (h : dataOk db.groups_data = true) :
    dataOk (save_group_data db g dim c c lc).groups_data = true := by
  show dataOk (saveLeaveRows g lc (saveScoreRows g (dim.bind col_map) c c db.groups_data)) = true
  exact dataOk_saveLeaveRows g lc _ (dataOk_saveScoreRows g (dim.bind col_map) c _ h)

theorem renameTail_worldOk (w : World) (data1 : List GroupRow) (old new ts : String)
    (h1 : dataOk data1 = true) (hd : dataOk w.db.groups_data = true) :
    worldOk (renameTail w data1 old new ts) := by
  refine ⟨h1, ?_⟩
  show dataOk (db_rename_group w.db old new).groups_data = true
  refine all_map_of_preserve scoresOk
    (fun row => if row.name = old then { row with name := new } else row)
    (fun row hr => ?_) w.db.groups_data hd
  show scoresOk (if row.name = old then { row with name := new } else row) = true
  split
  · exact hr
  · exact hr

theorem step_worldOk (w : World) (op : AppOp) (h : worldOk w) : worldOk (step w op) := by
  obtain ⟨hs, hd⟩ := h
  cases op with
  | adminScore g d c reason ts =>
      simp only [worldOk, step]
      split
      · exact ⟨all_updateFirst scoresOk (fun row => row.name == g) (scoreAdjRow d c)
            (scoresOk_scoreAdjRow d c) w.session.data hs,
          dataOk_save_group_data w.db g (some (dimName d)) c 0 hd⟩
      · exact ⟨hs, hd⟩
  | submitScore g d c reason ts => exact ⟨hs, hd⟩
  | submitLeave g pn hrs reason ts => exact ⟨hs, hd⟩
  | approveAt i =>
      cases hg : w.session.approvals[i]? with
      | none =>
          simp only [worldOk, step, hg]
          exact ⟨hs, hd⟩
      | some item =>
          obtain ⟨body, db_id⟩ := item
          cases body with
          | score g d c reason ts =>
              simp only [worldOk, step, hg]
              split
              · simp only [groups_delete_approval, groups_add_log]
                exact ⟨all_updateFirst scoresOk (fun row => row.name == g) (scoreAdjRow d c)
                    (scoresOk_scoreAdjRow d c) w.session.data hs,
                  dataOk_save_group_data w.db g (some (dimName d)) c 0 hd⟩
              · exact ⟨hs, hd⟩
          | leave g pn hrs reason ts =>
              simp only [worldOk, step, hg]
              split
              · simp only [groups_delete_approval, groups_add_log, groups_add_leave_record]
                refine ⟨all_updateFirst scoresOk (fun row => row.name == g)
                    (fun row => { row with leaveHours := row.leaveHours + hrs })
                    (fun row hr => hr) w.session.data hs, ?_⟩
                exact dataOk_save_group_data (add_leave_record w.db g pn hrs) g none 0 hrs hd
              · exact ⟨hs, hd⟩
  | rejectAt i =>
      cases hg : w.session.approvals[i]? with
      | none =>
          simp only [worldOk, step, hg]
          exact ⟨hs, hd⟩
      | some item =>
          simp only [worldOk, step, hg, groups_delete_approval]
          exact ⟨hs, hd⟩
  | rename old new clicked ts =>
      simp only [worldOk, step]
      split
      · split
        · exact renameTail_worldOk w w.session.data old new ts hs hd
        · split
          · exact renameTail_worldOk w w.session.data old new ts hs hd
          · split
            · exact renameTail_worldOk w
                (updateFirst (fun row => row.name == old)
                  (fun row => { row with name := new }) w.session.data) old new ts
                (all_updateFirst scoresOk (fun row => row.name == old)
                  (fun row => { row with name := new }) (fun row hr => hr) w.session.data hs)
                hd
            · exact ⟨hs, hd⟩
      · exact renameTail_worldOk w w.session.data old new ts hs hd

theorem run_worldOk (ops : List AppOp) (w : World) (h : worldOk w) : worldOk (run w ops) := by
  induction ops generalizing w with
  | nil => exact h
  | cons op ops ih => exact ih _ (step_worldOk _ _ h)

theorem dataOk_seedRows : dataOk seedRows = true := by
  norm_num [dataOk, seedRows, seedNames, seedRow, scoresOk, List.all]

theorem initWorld_ok : worldOk initWorld := by
  constructor
  · show dataOk seedRows = true
    exact dataOk_seedRows
  · show dataOk seedRows = true
    exact dataOk_seedRows

/-- C1: for every group, after any sequence of score mutations (batch or
single quick-score dialog rows, leader submissions, admin approvals or
rejections, renames) starting from the seed state, the group's total score
equals the sum of its four dimension scores — both in the session dataframe
and in the persisted `groups_data` table. -/
theorem c1_total_eq_sum_of_dims (ops : List AppOp) :
    dataOk (run initWorld ops).session.data = true ∧
    dataOk (run initWorld ops).db.groups_data = true := by
  have h := run_worldOk ops initWorld initWorld_ok
  exact ⟨h.1, h.2⟩

theorem eraseIdx_of_getElem_none : ∀ (l : List α) (i : Nat), l[i]? = none → l.eraseIdx i = l := by
  intro l
  induction l with
  | nil => intro i _; cases i <;> rfl
  | cons x xs ih =>
      intro i h
      cases i with
      | zero => simp at h
      | succ i =>
          simp only [List.getElem?_cons_succ] at h
          simp only [List.eraseIdx]
          rw [ih i h]

/-- C6: rejecting a pending request (the 驳回 button at position `i`) removes
it from the in-memory queue and changes nothing else: the session dataframe,
session logs, session leave records, and the persisted `groups_data`, `logs`
and `leave_records` tables are all untouched. -/
theorem c6_reject_is_pure_removal (w : World) (i : Nat) :
    (step w (AppOp.rejectAt i)).session.data = w.session.data ∧
    (step w (AppOp.rejectAt i)).session.logs = w.session.logs ∧
    (step w (AppOp.rejectAt i)).session.leave_records = w.session.leave_records ∧
    (step w (AppOp.rejectAt i)).session.approvals = w.session.approvals.eraseIdx i ∧
    (step w (AppOp.rejectAt i)).db.groups_data = w.db.groups_data ∧
    (step w (AppOp.rejectAt i)).db.logs = w.db.logs ∧
    (step w (AppOp.rejectAt i)).db.leave_records = w.db.leave_records := by
  cases hg : w.session.approvals[i]? with
  | none =>
      rw [eraseIdx_of_getElem_none _ i hg]
      simp [step, hg]
  | some item =>
      cases hid : item.db_id with
      | none => simp [step, hg, delete_approval, hid]
      | some n => simp [step, hg, delete_approval, hid]

/-- `MAX_LEAVE_HOURS` of the main page (the "思过崖" expander). -/
def MAX_LEAVE_HOURS : ℚ := 8.4

/-- The per-person ineligibility test of the main page:
`total_hours > MAX_LEAVE_HOURS` (the spec's `isOverThreshold`). -/
def isOverThreshold (total_hours : ℚ) : Bool := decide (total_hours > MAX_LEAVE_HOURS)

/-- C8: the leave-ineligibility check is a strict comparison against the
fixed threshold 8.4 = 0.2 * 42: a total is flagged iff it is strictly greater
than 8.4, so 9.0 is flagged and exactly 8.4 is not. -/
theorem c8_threshold_strict_at_8_4 :
    MAX_LEAVE_HOURS = (0.2 : ℚ) * 42 ∧
    (∀ t : ℚ, isOverThreshold t = decide (t > 8.4)) ∧
    isOverThreshold 9 = true ∧
    isOverThreshold 8.4 = false := by
  refine ⟨by norm_num [MAX_LEAVE_HOURS], fun t => rfl, ?_, ?_⟩
  · simp only [isOverThreshold, MAX_LEAVE_HOURS, decide_eq_true_eq]
    norm_num
  · simp only [isOverThreshold, MAX_LEAVE_HOURS, decide_eq_false_iff_not]
    norm_num

/-- C9: on empty storage, `load_data` seeds exactly 7 groups with total 100,
25 per dimension and 0 leave hours, writes them to the store, and a second
`load_data` on the resulting store returns exactly the same state. -/
theorem c9_seed_initialization :
    (load_data emptyDb).1.data = seedRows ∧
    (load_data emptyDb).2.groups_data = seedRows ∧
    seedRows.length = 7 ∧
    (∀ n : String, (seedRow n).total = 100 ∧ (seedRow n).punctuality = 25 ∧
      (seedRow n).focus = 25 ∧ (seedRow n).help = 25 ∧ (seedRow n).vitality = 25 ∧
      (seedRow n).leaveHours = 0) ∧
    load_data (load_data emptyDb).2 = load_data emptyDb :=
  ⟨rfl, rfl, rfl, fun _ => ⟨rfl, rfl, rfl, rfl, rfl, rfl⟩, rfl⟩

/-- `GROUP_PASSWORDS = {g: "123" for g in groups}`, built from the group list
that `load_data` stored in the module-level `groups` variable. -/
def GROUP_PASSWORDS (groups : List String) : List (String × String) :=
  groups.map (fun g => (g, "123"))

/-- Python `dict.get(key, default)` for a string-to-string dict. -/
def dict_getD : List (String × String) → String → String → String
  | [], _, dflt => dflt
  | p :: ps, k, dflt => if p.1 = k then p.2 else dict_getD ps k dflt

/-- The group-leader login check:
`gp_pw == GROUP_PASSWORDS.get(selected_group, "")`. -/
def leader_login_ok (table : List (String × String)) (selected_group gp_pw : String) : Bool :=
  gp_pw == dict_getD table selected_group ""

theorem dict_getD_passwords_absent (gs : List String) (g : String)
    (h : gs.contains g = false) :
    dict_getD (GROUP_PASSWORDS gs) g "" = "" := by
  induction gs with
  | nil => rfl
  | cons x xs ih =>
      simp only [List.contains_cons, Bool.or_eq_false_iff] at h
      simp only [GROUP_PASSWORDS, List.map_cons, dict_getD]
      rw [if_neg]
      · exact ih h.2
      · intro hx
        rw [hx] at h
        simp at h

/-- C10: for any selected group name absent from the password table built
from the group list loaded at session start (for example a group renamed
afterwards), `dict.get` returns the default empty string, so an empty
password input grants leader access. -/
theorem c10_absent_group_empty_password (gs : List String) (g : String)
    (h : gs.contains g = false) :
    leader_login_ok (GROUP_PASSWORDS gs) g "" = true := by
  unfold leader_login_ok
  rw [dict_getD_passwords_absent gs g h]
  rfl

/-- Witness for C10 at a concrete input: "八组" is not among the seed group
names, and logging in as "八组" with the empty password succeeds. -/
theorem c10_witness :
    seedNames.contains "八组" = false ∧
    leader_login_ok (GROUP_PASSWORDS seedNames) "八组" "" = true :=
  ⟨by decide, c10_absent_group_empty_password seedNames "八组" (by decide)⟩

/-- The aggregation key of the main page: the f-string `f"{group}-{name}"`. -/
def leaveKey (r : LeaveRecord) : String := r.group ++ "-" ++ r.name

/-- One Python dict write `d[k] = d.get(k, 0) + h` on an insertion-ordered
string-keyed dict represented as an assoc list. -/
def bump : List (String × ℚ) → String → ℚ → List (String × ℚ)
  | [], k, h => [(k, h)]
  | p :: ps, k, h => if p.1 = k then (p.1, p.2 + h) :: ps else p :: bump ps k h

/-- The `person_leaves` aggregation loop of the main page. -/
def person_leaves (records : List LeaveRecord) : List (String × ℚ) :=
  records.foldl (fun acc r => bump acc (leaveKey r) r.hours) []

/-- Python `dict.get(k, 0)` on the aggregation dict. -/
def dict_get0 : List (String × ℚ) → String → ℚ
  | [], _ => 0
  | p :: ps, k => if p.1 = k then p.2 else dict_get0 ps k

/-- Modelled from the spec: the total hours over all leave records whose
aggregation key string equals `key` (the spec words say "sum of all
LeaveRecords with that (group, name) key"; the code keys the dict by the
concatenated string, which this definition mirrors so the two can be
compared). -/
def sumForKey (records : List LeaveRecord) (key : String) : ℚ :=
  ((records.filter (fun r => leaveKey r == key)).map (fun r => r.hours)).sum

theorem dict_get0_bump (k k2 : String) (h : ℚ) :
    ∀ m : List (String × ℚ),
      dict_get0 (bump m k h) k2 = dict_get0 m k2 + (if k2 = k then h else 0) := by
  intro m
  induction m with
  | nil =>
      by_cases hk : k2 = k
      · subst hk
        simp [bump, dict_get0]
      · have hk2 : ¬ k = k2 := fun e => hk e.symm
        simp [bump, dict_get0, hk, hk2]
  | cons p ps ih =>
      by_cases hp : p.1 = k
      · simp only [bump, if_pos hp, dict_get0]
        by_cases hq : p.1 = k2
        · have he : k2 = k := by rw [← hq, hp]
          simp [hq, he]
        · have hk2 : ¬ k2 = k := fun e => hq (by rw [hp, ← e])
          simp [hq, hk2]
      · simp only [bump, if_neg hp, dict_get0]
        by_cases hq : p.1 = k2
        · have hk2 : ¬ k2 = k := fun e => hp (by rw [hq, e])
          simp [hq, hk2]
        · simp [hq, ih]

theorem sumForKey_cons (r : LeaveRecord) (rs : List LeaveRecord) (key : String) :
    sumForKey (r :: rs) key = (if key = leaveKey r then r.hours else 0) + sumForKey rs key := by
  by_cases h : key = leaveKey r
  · rw [if_pos h]
    have hb : (leaveKey r == key) = true := by simp [h.symm]
    simp [sumForKey, List.filter_cons, hb]
  · rw [if_neg h]
    have hb : (leaveKey r == key) = false := by
      simp only [beq_eq_false_iff_ne, ne_eq]
      exact fun e => h e.symm
    simp [sumForKey, List.filter_cons, hb]

theorem dict_get0_fold (key : String) :
    ∀ (rs : List LeaveRecord) (acc : List (String × ℚ)),
      dict_get0 (rs.foldl (fun a r => bump a (leaveKey r) r.hours) acc) key
        = dict_get0 acc key + sumForKey rs key := by
  intro rs
  induction rs with
  | nil =>
      intro acc
      simp [sumForKey]
  | cons r rs ih =>
      intro acc
      simp only [List.foldl_cons]
      rw [ih, dict_get0_bump, sumForKey_cons]
      ring

/-- C7 amended: the aggregation is keyed by the concatenated string
`group ++ "-" ++ name`; each key string maps to the sum of hours over all
records whose key string equals it (so `(G,"Alice",3.0)` and `(G,"Alice",6.0)`
aggregate to `9.0`, but two records whose distinct (group, name) pairs
concatenate to the same string are merged into one aggregate). -/
theorem c7_aggregation_by_key_string (records : List LeaveRecord) (key : String) :
    dict_get0 (person_leaves records) key = sumForKey records key := by
  have h := dict_get0_fold key records []
  simpa [person_leaves, dict_get0] using h

/-- C7 counterexample: the records `("A-B","C",1.0)` and `("A","B-C",2.0)`
have different (group, name) pairs but the same concatenated key "A-B-C", so
`person_leaves` merges them into the single aggregate `("A-B-C", 3.0)` — the
claim that records with differing (group, name) pairs are never merged is
false on the code. -/
theorem c7_counterexample :
    (LeaveRecord.mk "A-B" "C" 1).group ≠ (LeaveRecord.mk "A" "B-C" 2).group ∧
    leaveKey (LeaveRecord.mk "A-B" "C" 1) = leaveKey (LeaveRecord.mk "A" "B-C" 2) ∧
    person_leaves [LeaveRecord.mk "A-B" "C" 1, LeaveRecord.mk "A" "B-C" 2]
      = [("A-B-C", 1 + 2)] ∧
    dict_get0 (person_leaves [LeaveRecord.mk "A-B" "C" 1, LeaveRecord.mk "A" "B-C" 2]) "A-B-C"
      ≠ (1 : ℚ) := by
  refine ⟨by decide, rfl, rfl, ?_⟩
  show (1 : ℚ) + 2 ≠ 1
  norm_num

theorem map_ite_id (g : String) (f : GroupRow → GroupRow) :
    ∀ rows : List GroupRow, rows.all (fun row => row.name != g) = true →
      rows.map (fun row => if row.name = g then f row else row) = rows := by
  intro rows
  induction rows with
  | nil => intro _; rfl
  | cons x xs ih =>
      intro h
      simp only [List.all_cons, Bool.and_eq_true] at h
      have hx : ¬ x.name = g := by
        intro e
        rw [e] at h
        simp at h
      simp only [List.map_cons, if_neg hx, ih h.2]

theorem saveScoreRows_none (g : String) (c tc : ℚ) (rows : List GroupRow) :
    saveScoreRows g none c tc rows = rows := rfl

theorem saveScoreRows_absent (g : String) (dc : Option Dimension) (c tc : ℚ)
    (rows : List GroupRow) (h : rows.all (fun row => row.name != g) = true) :
    saveScoreRows g dc c tc rows = rows := by
  cases dc with
  | none => rfl
  | some d => exact map_ite_id g _ rows h

theorem saveLeaveRows_zero (g : String) (rows : List GroupRow) :
    saveLeaveRows g 0 rows = rows := by
  unfold saveLeaveRows
  rw [if_neg (lt_irrefl 0)]

/-- C5 amended: the DB write path performs no validation and signals no error
kind, but also changes no state on a validation failure: with a dimension
string outside `col_map`, or with a group name matching no row,
`save_group_data` returns the store unchanged.  (The in-memory dialogs cannot
be reached with an unknown group, since the group comes from a selectbox over
the current dataframe, and their dimension argument is one of the four fixed
column names at every call site.) -/
theorem c5_silent_noop_on_validation_failure :
    (∀ (db : Db) (g dim : String) (c tc : ℚ),
        col_map dim = none → save_group_data db g (some dim) c tc 0 = db) ∧
    (∀ (db : Db) (g : String) (dim : Option String) (c tc : ℚ),
        db.groups_data.all (fun row => row.name != g) = true →
        save_group_data db g dim c tc 0 = db) := by
  constructor
  · intro db g dim c tc h
    show { db with groups_data :=
        saveLeaveRows g 0 (saveScoreRows g ((some dim).bind col_map) c tc db.groups_data) } = db
    have hb : (some dim).bind col_map = (none : Option Dimension) := h
    rw [hb, saveScoreRows_none, saveLeaveRows_zero]
  · intro db g dim c tc h
    show { db with groups_data :=
        saveLeaveRows g 0 (saveScoreRows g (dim.bind col_map) c tc db.groups_data) } = db
    rw [saveScoreRows_absent g (dim.bind col_map) c tc db.groups_data h, saveLeaveRows_zero]

/-- C5 counterexample: `adjustScore` as implemented does not fail with
`InvalidDimension` on an unrecognized dimension, nor with `UnknownGroup` on an
absent group — `save_group_data` completes normally in both cases (returning
the seeded store unchanged), and no error kind of any sort reaches the
caller. -/
theorem c5_counterexample :
    save_group_data (load_data emptyDb).2 "一组" (some "体力维度") (-10) (-10) 0
      = (load_data emptyDb).2 ∧
    save_group_data (load_data emptyDb).2 "不存在的组" (some "自强不息(准时)") (-10) (-10) 0
      = (load_data emptyDb).2 := by
  constructor
  · simp only [save_group_data]
    rw [show ((some "体力维度").bind col_map) = (none : Option Dimension) from rfl,
      saveScoreRows_none, saveLeaveRows_zero]
  · simp only [save_group_data]
    rw [saveScoreRows_absent "不存在的组" _ (-10) (-10) _ (by decide), saveLeaveRows_zero]

/-- Witness for C5 at concrete inputs: an unrecognized dimension string and an
absent group both leave the seeded store unchanged. -/
theorem c5_witness :
    col_map "青春维度" = none ∧
    save_group_data (load_data emptyDb).2 "二组" (some "青春维度") 5 5 0
      = (load_data emptyDb).2 ∧
    (load_data emptyDb).2.groups_data.all (fun row => row.name != "九组") = true ∧
    save_group_data (load_data emptyDb).2 "九组" (some "行胜于言(专注)") 5 5 0
      = (load_data emptyDb).2 :=
  ⟨rfl,
   c5_silent_noop_on_validation_failure.1 (load_data emptyDb).2 "二组" "青春维度" 5 5 rfl,
   by decide,
   c5_silent_noop_on_validation_failure.2 (load_data emptyDb).2 "九组"
     (some "行胜于言(专注)") 5 5 (by decide)⟩

theorem getElem?_eraseIdx_lt : ∀ (l : List α) (i j : Nat), j < i →
    (l.eraseIdx i)[j]? = l[j]? := by
  intro l
  induction l with
  | nil => intro i j _; rfl
  | cons x xs ih =>
      intro i j hj
      cases i with
      | zero => exact absurd hj (Nat.not_lt_zero j)
      | succ i =>
          cases j with
          | zero => simp [List.eraseIdx]
          | succ j =>
              simp only [List.eraseIdx, List.getElem?_cons_succ]
              exact ih i j (Nat.lt_of_succ_lt_succ hj)

theorem getElem?_eraseIdx_ge : ∀ (l : List α) (i j : Nat), i ≤ j → i < l.length →
    (l.eraseIdx i)[j]? = l[j + 1]? := by
  intro l
  induction l with
  | nil => intro i j _ h; simp at h
  | cons x xs ih =>
      intro i j hij hi
      cases i with
      | zero => simp only [List.eraseIdx, List.getElem?_cons_succ]
      | succ i =>
          cases j with
          | zero => exact absurd hij (by omega)
          | succ j =>
              simp only [List.eraseIdx, List.getElem?_cons_succ]
              have hi2 : i < xs.length := by
                simp only [List.length_cons] at hi
                omega
              exact ih i j (Nat.le_of_succ_le_succ hij) hi2

theorem length_eraseIdx_add_one : ∀ (l : List α) (i : Nat), i < l.length →
    (l.eraseIdx i).length + 1 = l.length := by
  intro l
  induction l with
  | nil => intro i h; simp at h
  | cons x xs ih =>
      intro i h
      cases i with
      | zero => simp [List.eraseIdx]
      | succ i =>
          have hi : i < xs.length := by
            simp only [List.length_cons] at h
            omega
          have := ih i hi
          simp only [List.eraseIdx, List.length_cons]
          omega

theorem filter_self_idem (p : α → Bool) : ∀ l : List α,
    (l.filter p).filter p = l.filter p := by
  intro l
  induction l with
  | nil => rfl
  | cons x xs ih =>
      by_cases hx : p x
      · simp [List.filter_cons, hx, ih]
      · simp [List.filter_cons, hx, ih]

theorem find?_updateFirst (p : α → Bool) (f : α → α) (hf : ∀ a, p (f a) = p a) :
    ∀ l : List α, (updateFirst p f l).find? p = (l.find? p).map f := by
  intro l
  induction l with
  | nil => rfl
  | cons x xs ih =>
      by_cases hx : p x
      · have hfx : p (f x) = true := by rw [hf]; exact hx
        simp only [updateFirst, if_pos hx]
        rw [List.find?_cons_of_pos _ hfx, List.find?_cons_of_pos _ hx]
        rfl
      · simp only [updateFirst, if_neg hx]
        rw [List.find?_cons_of_neg _ hx, List.find?_cons_of_neg _ hx]
        exact ih

theorem approvals_add_log (db : Db) (m : String) :
    (add_log db m).approvals = db.approvals := rfl

theorem approvals_save_group_data (db : Db) (g : String) (dim : Option String)
    (c tc lc : ℚ) : (save_group_data db g dim c tc lc).approvals = db.approvals := rfl

/-- Modelled from the spec: removal "by stable identity" — erase the (first)
pending request whose identity is the given queue id, irrespective of its
position.  The source has no such operation: its in-memory removal is the
positional `approvals.pop(i)`. -/
def removeById (q : List SessionReq) (n : Nat) : List SessionReq :=
  q.eraseP (fun r => r.db_id == some n)

/-- C2 (amended) theorem: approving the pending score request at position `i`
(carrying store id `n`), provided its target group is present in the
dataframe (otherwise the handler's `idx = ...index[0]` lookup raises
IndexError and the run aborts before any effect), applies its score effect to
the target group exactly once, removes exactly the element at position `i`
from the in-memory queue (entries before `i` keep their positions, entries
after `i` shift down by one — nothing is skipped or duplicated in this
sequential run), deletes exactly the rows with id `n` from the persisted
queue, and deleting the same id a second time is a silent no-op that leaves
the store unchanged (not a `NotFound` failure). -/
theorem c2_approve_applies_effect_once (w : World) (i n : Nat) (g : String)
    (d : Dimension) (c : ℚ) (r ts : String)
    (hi : w.session.approvals[i]? = some ⟨ReqBody.score g d c r ts, some n⟩)
    (hpresent : w.session.data.any (fun row => row.name == g) = true) :
    (step w (AppOp.approveAt i)).session.approvals = w.session.approvals.eraseIdx i ∧
    (step w (AppOp.approveAt i)).session.approvals.length + 1
      = w.session.approvals.length ∧
    (∀ j, j < i → (step w (AppOp.approveAt i)).session.approvals[j]?
      = w.session.approvals[j]?) ∧
    (∀ j, i ≤ j → (step w (AppOp.approveAt i)).session.approvals[j]?
      = w.session.approvals[j + 1]?) ∧
    (step w (AppOp.approveAt i)).session.data.find? (fun row => row.name == g)
      = (w.session.data.find? (fun row => row.name == g)).map (scoreAdjRow d c) ∧
    (step w (AppOp.approveAt i)).db.approvals
      = w.db.approvals.filter (fun row => row.1 != n) ∧
    delete_approval (step w (AppOp.approveAt i)).db (some n)
      = (step w (AppOp.approveAt i)).db := by
  have hlen : i < w.session.approvals.length := by
    by_contra hc
    push_neg at hc
    rw [List.getElem?_eq_none hc] at hi
    simp at hi
  simp only [step, hi]
  rw [if_pos hpresent]
  simp only [delete_approval, approvals_add_log, approvals_save_group_data,
    filter_self_idem]
  exact ⟨by trivial, length_eraseIdx_add_one _ i hlen,
    fun j hj => getElem?_eraseIdx_lt _ i j hj,
    fun j hj => getElem?_eraseIdx_ge _ i j hj hlen,
    find?_updateFirst (fun row => row.name == g) (scoreAdjRow d c)
      (fun a => by cases d <;> rfl) w.session.data,
    by trivial, by trivial⟩

/-- A session freshly loaded from a store holding one pending score request
(so the request carries its `db_id`). -/
def reloadedWorld : World :=
  ⟨(load_data (add_approval (load_data emptyDb).2
      (ReqBody.score "一组" Dimension.punctuality (-5) "迟到" "08:00"))).1,
   (load_data (add_approval (load_data emptyDb).2
      (ReqBody.score "一组" Dimension.punctuality (-5) "迟到" "08:00"))).2⟩

/-- Witness for C2 at a concrete state: the loaded queue holds the request at
position 0 with id 1 and its group 一组 is present in the dataframe;
approving it shrinks the queue by one and re-deleting id 1 leaves the store
unchanged. -/
theorem c2_witness :
    reloadedWorld.session.approvals[0]?
      = some ⟨ReqBody.score "一组" Dimension.punctuality (-5) "迟到" "08:00", some 1⟩ ∧
    reloadedWorld.session.data.any (fun row => row.name == "一组") = true ∧
    (step reloadedWorld (AppOp.approveAt 0)).session.approvals.length + 1
      = reloadedWorld.session.approvals.length ∧
    delete_approval (step reloadedWorld (AppOp.approveAt 0)).db (some 1)
      = (step reloadedWorld (AppOp.approveAt 0)).db := by
  have h := c2_approve_applies_effect_once reloadedWorld 0 1 "一组" Dimension.punctuality
    (-5) "迟到" "08:00" rfl rfl
  exact ⟨rfl, rfl, h.2.1, h.2.2.2.2.2.2⟩

/-- C2 counterexample: in-memory removal is positional (`pop(i)`), not by
stable identity.  With the live queue holding the requests with ids 2 and 3
(the id-1 entry having already been removed), popping the remembered index 1
removes the id-3 request, while identity-keyed removal of id 2 removes the
id-2 request: the two disagree, so a stale index removes a different request
than the one identified. -/
theorem c2_counterexample :
    List.eraseIdx
        [SessionReq.mk (ReqBody.leave "二组" "乙" 2 "会议" "09:00") (some 2),
         SessionReq.mk (ReqBody.leave "三组" "丙" 3 "出差" "09:05") (some 3)] 1
      ≠ removeById
        [SessionReq.mk (ReqBody.leave "二组" "乙" 2 "会议" "09:00") (some 2),
         SessionReq.mk (ReqBody.leave "三组" "丙" 3 "出差" "09:05") (some 3)] 2 := by
  intro h
  have h1 : List.eraseIdx
      [SessionReq.mk (ReqBody.leave "二组" "乙" 2 "会议" "09:00") (some 2),
       SessionReq.mk (ReqBody.leave "三组" "丙" 3 "出差" "09:05") (some 3)] 1
      = [SessionReq.mk (ReqBody.leave "二组" "乙" 2 "会议" "09:00") (some 2)] := rfl
  have h2 : removeById
      [SessionReq.mk (ReqBody.leave "二组" "乙" 2 "会议" "09:00") (some 2),
       SessionReq.mk (ReqBody.leave "三组" "丙" 3 "出差" "09:05") (some 3)] 2
      = [SessionReq.mk (ReqBody.leave "三组" "丙" 3 "出差" "09:05") (some 3)] := rfl
  rw [h1, h2] at h
  have h6 := congrArg List.head? h
  simp only [List.head?] at h6
  have h7 := Option.some.inj h6
  have h8 := congrArg SessionReq.db_id h7
  simp at h8

theorem load_data_approvals (db : Db) :
    (load_data db).1.approvals = db.approvals.map (fun r => SessionReq.mk r.2 (some r.1)) := by
  unfold load_data
  cases hdb : db.groups_data with
  | nil => rfl
  | cons r rs => rfl

/-- C3 (code bug) — evaluation at the failing input: a request submitted in
the running session carries no `db_id` key, so when it is approved,
`delete_approval(item.get("db_id"))` runs `DELETE FROM approvals WHERE id =
NULL`, which matches no row.  The request disappears from the in-memory queue
but survives in the approvals store, and the next `load_data` returns it as
pending again — it can be approved (and its effect applied) a second time. -/
theorem c3_bug_approved_request_survives_in_store :
    (step (step initWorld
        (AppOp.submitScore "一组" Dimension.punctuality (-5) "迟到" "09:00"))
        (AppOp.approveAt 0)).session.approvals = [] ∧
    (step (step initWorld
        (AppOp.submitScore "一组" Dimension.punctuality (-5) "迟到" "09:00"))
        (AppOp.approveAt 0)).db.approvals
      = [(1, ReqBody.score "一组" Dimension.punctuality (-5) "迟到" "09:00")] ∧
    (load_data (step (step initWorld
        (AppOp.submitScore "一组" Dimension.punctuality (-5) "迟到" "09:00"))
        (AppOp.approveAt 0)).db).1.approvals
      = [SessionReq.mk (ReqBody.score "一组" Dimension.punctuality (-5) "迟到" "09:00")
          (some 1)] := by
  refine ⟨rfl, rfl, ?_⟩
  rw [load_data_approvals]
  rfl

/-- C4 (code bug) — evaluation at the failing input: with old name "一组" and
a blank new name, the in-memory rename is rejected (the dataframe keeps the
seed rows), yet the statements dedented out of the `if st.button` block still
run: a rename log line is appended to the session log and to the logs table,
and the persisted `UPDATE groups_data SET group_name = ''` renames the stored
group to the empty string.  The same happens with no click at all. -/
theorem c4_bug_rejected_rename_still_logs_and_persists :
    (step initWorld (AppOp.rename "一组" "" true "20:00")).session.data = seedRows ∧
    (step initWorld (AppOp.rename "一组" "" true "20:00")).session.logs.length = 1 ∧
    (step initWorld (AppOp.rename "一组" "" true "20:00")).db.logs.length = 1 ∧
    (step initWorld (AppOp.rename "一组" "" true "20:00")).db.groups_data.map
        (fun r => r.name)
      = ["", "二组", "三组", "四组", "五组", "六组", "七组"] ∧
    (step initWorld (AppOp.rename "一组" "" false "20:01")).db.groups_data.map
        (fun r => r.name)
      = ["", "二组", "三组", "四组", "五组", "六组", "七组"] ∧
    (step initWorld (AppOp.rename "一组" "" false "20:01")).session.logs.length = 1 :=
  ⟨rfl, rfl, rfl, rfl, rfl, rfl⟩

end App
